import Mathlib

/-!
Verification of the two utility scripts in `s28672/pbio`:
the GenBank batched fetch-with-retry pipeline
(`s28672_2025-2.py`) and the DNA sequence generator / statistics /
FASTA writer (`s28672_2025.py`).

Conventions of the embedding:
* Python strings become `List Char`; machine floats used for the
  statistics become `ℚ` (the formulas involve only exact divisions).
* Code that can raise becomes `Option` / `Except Unit`.
* The remote `Entrez.efetch` call is an oracle parameter
  `fetch : Nat → List α → Except Unit (List ρ)` mapping an attempt
  index and a batch of ids to records or an exception.
* `time.sleep` and remote calls are recorded in an event trace so
  that claims about sleeping and the number of remote calls are
  statable.
-/

namespace PBio

/-- Events observable during `fetch_records`: a call to `time.sleep`
with its duration, or one remote `Entrez.efetch` call on a batch. -/
inductive FetchEvent (α : Type) where
  | sleep (duration : Nat)
  | efetch (batch : List α)
  deriving DecidableEq

/-- `chunkList bs l` is the list of slices `l[i:i+bs]` for
`i = 0, bs, 2*bs, ...`, i.e. the batches produced by
`for i in range(0, len(l), bs)` when `bs > 0`: the range has
`⌈len/bs⌉` steps and step `j` slices from `j*bs`.  (For `bs = 0`
Python raises `ValueError`; callers guard that case.) -/
def chunkList (bs : Nat) (l : List α) : List (List α) :=
  (List.range ((l.length + bs - 1) / bs)).map
    (fun j => (l.drop (j * bs)).take bs)

/-- One attempt's inner batch loop: for each batch, one `efetch` call;
on success append the parsed records and `time.sleep(1)`; the first
exception aborts the whole attempt.  Returns the event trace and
either the accumulated records or the exception. -/
def runBatches (fetch : List α → Except Unit (List ρ)) :
    List (List α) → List (FetchEvent α) × Except Unit (List ρ)
  | [] => ([], Except.ok [])
  | b :: bs =>
    match fetch b with
    | Except.error e => ([FetchEvent.efetch b], Except.error e)
    | Except.ok recs =>
      let r := runBatches fetch bs
      (FetchEvent.efetch b :: FetchEvent.sleep 1 :: r.1,
       match r.2 with
       | Except.ok rest => Except.ok (recs ++ rest)
       | Except.error e => Except.error e)

/-- One iteration of the retry loop, attempt index `attempt`
(0-based): `time.sleep(attempt * 2)`, then `batch_size =
min(3, len(id_list))`; if the batch size is `0` (empty id list) the
`range` call raises `ValueError` (caught by the attempt's generic
`except`), otherwise the batch loop runs. -/
def runAttempt (fetch : List α → Except Unit (List ρ)) (id_list : List α)
    (attempt : Nat) : List (FetchEvent α) × Except Unit (List ρ) :=
  let batch_size := min 3 id_list.length
  if batch_size = 0 then
    ([FetchEvent.sleep (attempt * 2)], Except.error ())
  else
    let r := runBatches fetch (chunkList batch_size id_list)
    (FetchEvent.sleep (attempt * 2) :: r.1, r.2)

/-- The retry loop over the remaining attempt indices.  Returns the
event trace, the number of attempts made, and the returned record
list (`[]` when the last attempt failed). -/
def fetchRecordsGo (fetch : Nat → List α → Except Unit (List ρ))
    (id_list : List α) : List Nat → List (FetchEvent α) × Nat × List ρ
  | [] => ([], 0, [])
  | a :: rest =>
    let r := runAttempt (fetch a) id_list a
    match r.2 with
    | Except.ok recs => (r.1, 1, recs)
    | Except.error _ =>
      match rest with
      | [] => (r.1, 1, [])
      | _ :: _ =>
        let s := fetchRecordsGo fetch id_list rest
        (r.1 ++ s.1, s.2.1 + 1, s.2.2)

/-- `NCBIRetriever.fetch_records`: `max_retries = 3` attempts,
indexed `0, 1, 2`. -/
def fetch_records (fetch : Nat → List α → Except Unit (List ρ))
    (id_list : List α) : List (FetchEvent α) × Nat × List ρ :=
  fetchRecordsGo fetch id_list (List.range 3)

/-- Extract the records of a successful fetch, `[]` on an exception. -/
def okD : Except Unit (List ρ) → List ρ
  | Except.ok l => l
  | Except.error _ => []

/-- A sequence record as used by the retrieval script: `r.id`,
`r.description` and `r.seq` (the filter only inspects `len(r.seq)`). -/
structure SeqRecord where
  id : List Char
  description : List Char
  seq : List Char
  deriving DecidableEq

/-- `NCBIRetriever.filter_by_length`: the list comprehension
`[r for r in records if min_length <= len(r.seq) <= max_length]`,
with `max_length` living in `WithTop Nat` because the Python default
is `float('inf')`. -/
def filter_by_length (records : List SeqRecord) (min_length : Nat)
    (max_length : WithTop Nat) : List SeqRecord :=
  match records with
  | [] => []
  | r :: rs =>
    if min_length ≤ r.seq.length ∧ (r.seq.length : WithTop Nat) ≤ max_length
    then r :: filter_by_length rs min_length max_length
    else filter_by_length rs min_length max_length

/-! ### The DNA sequence generator script -/

/-- `sequence.replace(name, "")` on `List Char`: remove the
occurrences of `pat` left to right, non-overlapping, resuming the
scan after each removed occurrence.  For `pat = []` Python's
`replace` of the empty pattern by the empty string returns the
string unchanged, and so does this function. -/
def replaceAllEmpty (pat : List Char) : List Char → List Char
  | [] => []
  | c :: rest =>
    if _h : pat ≠ [] ∧ pat.isPrefixOf (c :: rest)
    then replaceAllEmpty pat ((c :: rest).drop pat.length)
    else c :: replaceAllEmpty pat rest
  termination_by s => s.length
  decreasing_by
    · have hp : 0 < pat.length := List.length_pos.mpr _h.1
      simp only [List.length_drop, List.length_cons]
      omega
    · simp

/-- `insert_name_into_sequence`, with the result of
`random.randint(0, len(sequence))` passed in as `position`:
`sequence[:position] + name + sequence[position:]`. -/
def insert_name_into_sequence (sequence name : List Char)
    (position : Nat) : List Char :=
  sequence.take position ++ name ++ sequence.drop position

/-- The support of `random.randint(0, n)`: the `n + 1` values
`0, 1, ..., n`, both endpoints included. -/
def randintSupport (n : Nat) : List Nat :=
  List.range (n + 1)

/-- The dictionary returned by `calculate_statistics`, with the
floats embedded as rationals. -/
structure Stats where
  a_percent : ℚ
  c_percent : ℚ
  g_percent : ℚ
  t_percent : ℚ
  cg_percent : ℚ
  cg_ratio : ℚ
  deriving DecidableEq

/-- `calculate_statistics(sequence, name)`: strip the marker, count
the four bases, divide by the length of the stripped sequence.  When
that length is zero the Python divisions raise `ZeroDivisionError`
(unguarded in the source), which we embed as `none`. -/
def calculate_statistics (sequence name : List Char) : Option Stats :=
  let pure_sequence := replaceAllEmpty name sequence
  let total_length := pure_sequence.length
  if total_length = 0 then none
  else
    let a_count := pure_sequence.count 'A'
    let c_count := pure_sequence.count 'C'
    let g_count := pure_sequence.count 'G'
    let t_count := pure_sequence.count 'T'
    some
      { a_percent := ((a_count : ℚ) / (total_length : ℚ)) * 100
        c_percent := ((c_count : ℚ) / (total_length : ℚ)) * 100
        g_percent := ((g_count : ℚ) / (total_length : ℚ)) * 100
        t_percent := ((t_count : ℚ) / (total_length : ℚ)) * 100
        cg_percent := (((c_count : ℚ) + (g_count : ℚ)) / (total_length : ℚ)) * 100
        cg_ratio :=
          if a_count + t_count > 0
          then ((c_count : ℚ) + (g_count : ℚ)) / ((a_count : ℚ) + (t_count : ℚ))
          else 0 }

/-- Python's `\w` for `str` patterns, which is Unicode-aware: a
character matches iff it is alphanumeric in the sense of
`str.isalnum`, or is the underscore.  The model is exact on the
Latin-1 range: ASCII alphanumerics and `_`, plus the Latin-1 word
characters `ª µ º ² ³ ¹ ¼ ½ ¾` and the letters `À`–`Ö`, `Ø`–`ö`,
`ø`–`ÿ` (U+00D7 `×` and U+00F7 `÷` excluded).  Code points above
`U+00FF` are treated as word characters — an approximation of the
Unicode alphanumeric table that no theorem below depends on: the
theorems are either restricted to ASCII identifiers or evaluated on
Latin-1 inputs. -/
def pyWordChar (c : Char) : Bool :=
  c.isAlphanum || c = '_'
    || (0xC0 ≤ c.toNat && c.toNat ≤ 0xFF && c.toNat ≠ 0xD7
          && c.toNat ≠ 0xF7)
    || c.toNat = 0xAA || c.toNat = 0xB5 || c.toNat = 0xBA
    || c.toNat = 0xB2 || c.toNat = 0xB3 || c.toNat = 0xB9
    || (0xBC ≤ c.toNat && c.toNat ≤ 0xBE)
    || 0x100 ≤ c.toNat

/-- One character of `re.sub(r'[^\w\-\.]', '_', sequence_id)`: word
characters (per the Unicode-aware `\w`, see `pyWordChar`), the
hyphen and the dot are kept, everything else becomes an
underscore. -/
def sanitizeChar (c : Char) : Char :=
  if pyWordChar c || c = '-' || c = '.' then c else '_'

/-- `safe_id = re.sub(r'[^\w\-\.]', '_', sequence_id)`. -/
def sanitize_id (s : List Char) : List Char :=
  s.map sanitizeChar

/-- `save_to_fasta`, with the file system abstracted away: returns
the filename and the list of lines written (each line is terminated
by one newline when rendered, see `renderLines`).  The header is
`">" + sequence_id + " " + description` with the original,
unsanitized id; the body is the sequence sliced by
`range(0, len(sequence), 60)`. -/
def save_to_fasta (sequence_id description sequence : List Char) :
    List Char × List (List Char) :=
  let safe_id := sanitize_id sequence_id
  let filename := safe_id ++ (".fasta").toList
  let header := '>' :: (sequence_id ++ ' ' :: description)
  (filename, header :: chunkList 60 sequence)

/-- Flatten written lines to the file content, one newline written
after each line. -/
def renderLines (lines : List (List Char)) : List Char :=
  (lines.map (fun l => l ++ [Char.ofNat 10])).flatten

/-- The character class `[A-Za-z0-9_.-]` exactly as the spec words
it; used to compare the source's sanitizer against the spec. -/
def specKeepChar (c : Char) : Bool :=
  (('A' ≤ c && c ≤ 'Z') || ('a' ≤ c && c ≤ 'z') ||
   ('0' ≤ c && c ≤ '9') || c = '_' || c = '.' || c = '-')

/-- Sanitization as the spec describes it: replace every character
outside `[A-Za-z0-9_.-]` with an underscore. -/
def spec_sanitize (s : List Char) : List Char :=
  s.map (fun c => if specKeepChar c then c else '_')

/-! ### Concrete instances used to exercise the theorems -/

/-- A remote stub that raises on attempt 0 and afterwards returns the
queried batch itself as the parsed records. -/
def flakyFetch : Nat → List Nat → Except Unit (List Nat) :=
  fun k b => if k = 0 then Except.error () else Except.ok b

/-- A remote stub that raises on every call. -/
def failFetch : Nat → List Nat → Except Unit (List Nat) :=
  fun _ _ => Except.error ()

/-- A remote stub that always succeeds, returning the batch itself. -/
def okFetch : Nat → List Nat → Except Unit (List Nat) :=
  fun _ b => Except.ok b

/-- A small concrete record list for exercising the filter. -/
def sampleRecords : List SeqRecord :=
  [⟨('r' :: ['1']), [], ['A', 'C']⟩,
   ⟨('r' :: ['2']), [], ['A', 'C', 'G', 'T', 'A']⟩,
   ⟨('r' :: ['3']), [], []⟩]

/-! ### Lemmas about batching -/

theorem chunkList_nil (bs : Nat) : chunkList bs ([] : List α) = [] := by
  have h0 : (([] : List α).length + bs - 1) / bs = 0 := by
    cases bs with
    | zero => simp
    | succ b =>
      simp only [List.length_nil, Nat.zero_add, Nat.add_sub_cancel]
      exact Nat.div_eq_of_lt (by omega)
  unfold chunkList
  rw [h0]
  rfl

theorem chunkList_length (bs : Nat) (l : List α) :
    (chunkList bs l).length = (l.length + bs - 1) / bs := by
  simp [chunkList]

theorem chunkList_cons (bs : Nat) (hbs : bs ≠ 0) (l : List α) (hl : l ≠ []) :
    chunkList bs l = l.take bs :: chunkList bs (l.drop bs) := by
  have hbs' : 0 < bs := Nat.pos_of_ne_zero hbs
  have hn : 0 < l.length := List.length_pos.mpr hl
  have hcount : (l.length + bs - 1) / bs
      = ((l.drop bs).length + bs - 1) / bs + 1 := by
    rw [List.length_drop]
    rcases le_or_lt l.length bs with h | h
    · have e1 : l.length + bs - 1 = (l.length - 1) + bs := by omega
      have e2 : l.length - bs + bs - 1 = bs - 1 := by omega
      rw [e1, e2, Nat.add_div_right _ hbs',
        Nat.div_eq_of_lt (show l.length - 1 < bs by omega),
        Nat.div_eq_of_lt (show bs - 1 < bs by omega)]
    · have h2 : l.length + bs - 1 = ((l.length - bs) + bs - 1) + bs := by
        omega
      rw [h2, Nat.add_div_right _ hbs']
  unfold chunkList
  rw [hcount, List.range_succ_eq_map, List.map_cons, List.map_map]
  congr 1
  · simp
  · apply List.map_congr_left
    intro j _
    simp only [Function.comp_apply, List.drop_drop, Nat.succ_mul]
    rw [Nat.add_comm]

theorem chunkList_flatten (bs : Nat) (hbs : bs ≠ 0) (l : List α) :
    (chunkList bs l).flatten = l := by
  have main : ∀ (n : Nat) (l : List α), l.length ≤ n →
      (chunkList bs l).flatten = l := by
    intro n
    induction n with
    | zero =>
      intro l hl
      have : l = [] := by
        cases l with
        | nil => rfl
        | cons a l' => simp at hl
      rw [this, chunkList_nil]
      rfl
    | succ n ih =>
      intro l hl
      cases l with
      | nil => rw [chunkList_nil]; rfl
      | cons a l' =>
        rw [chunkList_cons bs hbs _ (by simp), List.flatten_cons,
          ih ((a :: l').drop bs)
            (by simp only [List.length_drop, List.length_cons] at hl ⊢
                omega)]
        exact List.take_append_drop bs (a :: l')
  exact main l.length l le_rfl

theorem length_le_of_mem_chunkList {bs : Nat} {l : List α} {c : List α}
    (hc : c ∈ chunkList bs l) : c.length ≤ bs := by
  simp only [chunkList, List.mem_map, List.mem_range] at hc
  obtain ⟨j, _, rfl⟩ := hc
  simp only [List.length_take]
  exact min_le_left _ _

theorem chunkList_getD {bs : Nat} {l : List α} {i : Nat}
    (hi : i < (chunkList bs l).length) :
    (chunkList bs l).getD i [] = (l.drop (i * bs)).take bs := by
  rw [chunkList_length] at hi
  simp [chunkList, List.getD_eq_getElem?_getD, List.getElem?_map,
    List.getElem?_range hi]

theorem chunkList_getD_length {bs : Nat} (hbs : bs ≠ 0) {l : List α}
    {i : Nat} (hi : i + 1 < (chunkList bs l).length) :
    ((chunkList bs l).getD i []).length = bs := by
  have hbs' : 0 < bs := Nat.pos_of_ne_zero hbs
  rw [chunkList_getD (by omega)]
  simp only [List.length_take, List.length_drop]
  rw [chunkList_length] at hi
  have h2 : i + 2 ≤ (l.length + bs - 1) / bs := by omega
  have h3 : (i + 2) * bs ≤ l.length + bs - 1 :=
    (Nat.le_div_iff_mul_le hbs').mp h2
  rw [add_mul] at h3
  have h4 : i * bs + bs ≤ l.length := by
    generalize i * bs = p at h3 ⊢
    omega
  omega

/-! ### Lemmas about the fetch loop -/

theorem runBatches_nil (g : List α → Except Unit (List ρ)) :
    runBatches g [] = ([], Except.ok []) := rfl

theorem runBatches_cons_error {g : List α → Except Unit (List ρ)}
    {c : List α} (cs : List (List α)) (hg : g c = Except.error ()) :
    runBatches g (c :: cs) = ([FetchEvent.efetch c], Except.error ()) := by
  simp [runBatches, hg]

theorem runBatches_ok_eq {g : List α → Except Unit (List ρ)}
    {cs : List (List α)} {r : List ρ}
    (h : (runBatches g cs).2 = Except.ok r) :
    r = (cs.map (fun c => okD (g c))).flatten := by
  induction cs generalizing r with
  | nil =>
    simp only [runBatches_nil] at h
    cases h
    rfl
  | cons c cs ih =>
    cases hg : g c with
    | error e =>
      rw [runBatches_cons_error cs hg] at h
      cases h
    | ok recs =>
      simp only [runBatches, hg] at h
      cases hrest : (runBatches g cs).2 with
      | error e => rw [hrest] at h; cases h
      | ok rest =>
        rw [hrest] at h
        cases h
        rw [List.map_cons, List.flatten_cons, ih hrest, hg]
        rfl

theorem runAttempt_nil (g : List α → Except Unit (List ρ)) (k : Nat) :
    runAttempt g ([] : List α) k
      = ([FetchEvent.sleep (k * 2)], Except.error ()) := by
  simp [runAttempt]

theorem batch_size_ne_zero {ids : List α} (hl : ids ≠ []) :
    min 3 ids.length ≠ 0 := by
  cases ids with
  | nil => exact absurd rfl hl
  | cons a l => simp only [List.length_cons]; omega

theorem runAttempt_ne_nil (g : List α → Except Unit (List ρ))
    {ids : List α} (hl : ids ≠ []) (k : Nat) :
    runAttempt g ids k
      = (FetchEvent.sleep (k * 2)
           :: (runBatches g (chunkList (min 3 ids.length) ids)).1,
         (runBatches g (chunkList (min 3 ids.length) ids)).2) := by
  simp [runAttempt, batch_size_ne_zero hl]

theorem runAttempt_error {g : List α → Except Unit (List ρ)}
    {ids : List α} (hl : ids ≠ []) (hg : ∀ b, g b = Except.error ())
    (k : Nat) : (runAttempt g ids k).2 = Except.error () := by
  rw [runAttempt_ne_nil g hl k,
    chunkList_cons _ (batch_size_ne_zero hl) _ hl,
    runBatches_cons_error _ (hg _)]

theorem fetchRecordsGo_ok {f : Nat → List α → Except Unit (List ρ)}
    {ids : List α} {a : Nat} {rest : List Nat} {r : List ρ}
    (h : (runAttempt (f a) ids a).2 = Except.ok r) :
    fetchRecordsGo f ids (a :: rest) = ((runAttempt (f a) ids a).1, 1, r) := by
  simp [fetchRecordsGo, h]

theorem fetchRecordsGo_error_last {f : Nat → List α → Except Unit (List ρ)}
    {ids : List α} {a : Nat}
    (h : (runAttempt (f a) ids a).2 = Except.error ()) :
    fetchRecordsGo f ids [a] = ((runAttempt (f a) ids a).1, 1, []) := by
  simp [fetchRecordsGo, h]

theorem fetchRecordsGo_error_cons {f : Nat → List α → Except Unit (List ρ)}
    {ids : List α} {a b : Nat} (rest : List Nat)
    (h : (runAttempt (f a) ids a).2 = Except.error ()) :
    fetchRecordsGo f ids (a :: b :: rest)
      = ((runAttempt (f a) ids a).1 ++ (fetchRecordsGo f ids (b :: rest)).1,
         (fetchRecordsGo f ids (b :: rest)).2.1 + 1,
         (fetchRecordsGo f ids (b :: rest)).2.2) := by
  simp [fetchRecordsGo, h]

theorem fetch_records_def (f : Nat → List α → Except Unit (List ρ))
    (ids : List α) : fetch_records f ids = fetchRecordsGo f ids [0, 1, 2] :=
  rfl

theorem exists_ok_of_isOk {x : Except Unit (List ρ)}
    (h : x.isOk = true) : ∃ r, x = Except.ok r := by
  cases x with
  | ok r => exact ⟨r, rfl⟩
  | error e => simp [Except.isOk, Except.toBool] at h

theorem error_of_isOk_false {x : Except Unit (List ρ)}
    (h : x.isOk = false) : x = Except.error () := by
  cases x with
  | ok r => simp [Except.isOk, Except.toBool] at h
  | error e => cases e; rfl

/-! ### Claims about the batched fetch-with-retry loop -/

/-- C1 counterexample.  The claim says the empty id list makes no
sleep call and returns immediately; in the source `batch_size =
min(3, 0) = 0`, so `range(0, 0, 0)` raises `ValueError` on every
attempt, and the backoff sleeps of 0, 2 and 4 time units are all
executed before the empty list is returned on the third attempt. -/
theorem fetch_records_empty_sleeps :
    FetchEvent.sleep 2 ∈ (fetch_records okFetch ([] : List Nat)).1
      ∧ (fetch_records okFetch ([] : List Nat)).2.1 = 3 := by
  decide

/-- C1, amended: for the empty id list `fetch_records` performs zero
batch fetches and returns the empty list, but not immediately and
not without sleeping: the zero batch size makes every attempt raise
(`range` with step 0), so all three attempts run, with their backoff
sleeps of 0, 2 and 4 time units, before `[]` is returned. -/
theorem fetch_records_empty (f : Nat → List α → Except Unit (List ρ)) :
    fetch_records f ([] : List α)
        = ([FetchEvent.sleep 0, FetchEvent.sleep 2, FetchEvent.sleep 4], 3,
           ([] : List ρ))
      ∧ ∀ b, FetchEvent.efetch b ∉ (fetch_records f ([] : List α)).1 := by
  refine ⟨rfl, ?_⟩
  intro b
  show FetchEvent.efetch b ∉
    [FetchEvent.sleep 0, FetchEvent.sleep 2, FetchEvent.sleep 4]
  simp

/-- C1 witness: the amended behaviour at a concrete stub. -/
theorem fetch_records_empty_witness :
    fetch_records okFetch ([] : List Nat)
        = ([FetchEvent.sleep 0, FetchEvent.sleep 2, FetchEvent.sleep 4], 3,
           ([] : List Nat))
      ∧ FetchEvent.efetch [7] ∉ (fetch_records okFetch ([] : List Nat)).1 :=
  ⟨(fetch_records_empty okFetch).1, (fetch_records_empty okFetch).2 [7]⟩

/-- C2: if the remote fetch raises on every attempt, `fetch_records`
makes exactly `max_retries = 3` attempts, returns the empty list,
and no exception escapes (the embedding is a total function, so the
result is a plain value, not an `Except`). -/
theorem fetch_records_all_fail (f : Nat → List α → Except Unit (List ρ))
    (ids : List α) (hf : ∀ n b, f n b = Except.error ()) :
    (fetch_records f ids).2.1 = 3 ∧ (fetch_records f ids).2.2 = [] := by
  rw [fetch_records_def]
  by_cases hl : ids = []
  · subst hl
    exact ⟨rfl, rfl⟩
  · have h0 : (runAttempt (f 0) ids 0).2 = Except.error () :=
      runAttempt_error hl (fun b => hf 0 b) 0
    have h1 : (runAttempt (f 1) ids 1).2 = Except.error () :=
      runAttempt_error hl (fun b => hf 1 b) 1
    have h2 : (runAttempt (f 2) ids 2).2 = Except.error () :=
      runAttempt_error hl (fun b => hf 2 b) 2
    rw [fetchRecordsGo_error_cons _ h0, fetchRecordsGo_error_cons _ h1,
      fetchRecordsGo_error_last h2]
    exact ⟨rfl, rfl⟩

/-- C2 witness: the always-failing stub on a concrete four-element id
list makes 3 attempts and returns `[]`. -/
theorem fetch_records_all_fail_witness :
    (fetch_records failFetch [1, 2, 3, 4]).2.1 = 3
      ∧ (fetch_records failFetch [1, 2, 3, 4]).2.2 = [] :=
  fetch_records_all_fail failFetch [1, 2, 3, 4] (fun _ _ => rfl)

/-- C3: for a non-empty id list, if attempt `k` is the first on which
every batch fetch succeeds (`k < 3`), then `fetch_records` returns
exactly the ordered concatenation of attempt `k`'s batch results,
makes `k + 1` attempts, and the batches partition the id list in its
original order (their concatenation is the id list itself), the
batch size being `min 3 ids.length`.  Nothing from the earlier,
failed attempts' accumulators reaches the result. -/
theorem fetch_records_success (f : Nat → List α → Except Unit (List ρ))
    (ids : List α) (k : Nat) (hne : ids ≠ []) (hk3 : k < 3)
    (hok : ((runBatches (f k) (chunkList (min 3 ids.length) ids)).2).isOk
      = true)
    (hmin : ∀ j, j < k →
      ((runBatches (f j) (chunkList (min 3 ids.length) ids)).2).isOk
        = false) :
    (fetch_records f ids).2.2
        = ((chunkList (min 3 ids.length) ids).map
            (fun c => okD (f k c))).flatten
      ∧ (fetch_records f ids).2.1 = k + 1
      ∧ (chunkList (min 3 ids.length) ids).flatten = ids := by
  have hflat : (chunkList (min 3 ids.length) ids).flatten = ids :=
    chunkList_flatten _ (batch_size_ne_zero hne) ids
  obtain ⟨r, hr⟩ := exists_ok_of_isOk hok
  have hattk : (runAttempt (f k) ids k).2 = Except.ok r := by
    rw [runAttempt_ne_nil _ hne]
    exact hr
  have hrval : r
      = ((chunkList (min 3 ids.length) ids).map
          (fun c => okD (f k c))).flatten :=
    runBatches_ok_eq hr
  have herr : ∀ j, j < k → (runAttempt (f j) ids j).2 = Except.error () := by
    intro j hj
    rw [runAttempt_ne_nil _ hne]
    exact error_of_isOk_false (hmin j hj)
  interval_cases k
  · rw [fetch_records_def, fetchRecordsGo_ok hattk]
    exact ⟨hrval, rfl, hflat⟩
  · rw [fetch_records_def, fetchRecordsGo_error_cons _ (herr 0 (by omega)),
      fetchRecordsGo_ok hattk]
    exact ⟨hrval, rfl, hflat⟩
  · rw [fetch_records_def, fetchRecordsGo_error_cons _ (herr 0 (by omega)),
      fetchRecordsGo_error_cons _ (herr 1 (by omega)),
      fetchRecordsGo_ok hattk]
    exact ⟨hrval, rfl, hflat⟩

/-- C3 witness: a stub failing on attempt 0 and succeeding from
attempt 1 on, applied to the id list `[1,2,3,4,5]` (batches
`[1,2,3]` and `[4,5]`): the result is attempt 1's concatenation and
2 attempts are made. -/
theorem fetch_records_success_witness :
    (fetch_records flakyFetch [1, 2, 3, 4, 5]).2.2
        = ((chunkList (min 3 ([1, 2, 3, 4, 5] : List Nat).length)
              [1, 2, 3, 4, 5]).map (fun c => okD (flakyFetch 1 c))).flatten
      ∧ (fetch_records flakyFetch [1, 2, 3, 4, 5]).2.1 = 1 + 1
      ∧ (chunkList (min 3 ([1, 2, 3, 4, 5] : List Nat).length)
          [1, 2, 3, 4, 5]).flatten = [1, 2, 3, 4, 5] :=
  fetch_records_success flakyFetch [1, 2, 3, 4, 5] 1 (by decide) (by decide)
    (by decide) (by decide)

/-! ### Claims about the length filter -/

theorem filter_by_length_sublist (records : List SeqRecord)
    (min_length : Nat) (max_length : WithTop Nat) :
    (filter_by_length records min_length max_length).Sublist records := by
  induction records with
  | nil => exact List.Sublist.refl []
  | cons r rs ih =>
    rw [filter_by_length]
    split
    · exact ih.cons₂ r
    · exact ih.cons r

theorem mem_filter_by_length {records : List SeqRecord}
    {min_length : Nat} {max_length : WithTop Nat} {r : SeqRecord} :
    r ∈ filter_by_length records min_length max_length
      ↔ r ∈ records ∧ min_length ≤ r.seq.length
          ∧ (r.seq.length : WithTop Nat) ≤ max_length := by
  induction records with
  | nil => simp [filter_by_length]
  | cons a rs ih =>
    rw [filter_by_length]
    split
    · rename_i hcond
      simp only [List.mem_cons, ih]
      constructor
      · rintro (rfl | ⟨hm, hc⟩)
        · exact ⟨Or.inl rfl, hcond⟩
        · exact ⟨Or.inr hm, hc⟩
      · rintro ⟨rfl | hm, hc⟩
        · exact Or.inl rfl
        · exact Or.inr ⟨hm, hc⟩
    · rename_i hcond
      rw [ih]
      simp only [List.mem_cons]
      constructor
      · rintro ⟨hm, hc⟩
        exact ⟨Or.inr hm, hc⟩
      · rintro ⟨rfl | hm, hc⟩
        · exact absurd hc hcond
        · exact ⟨hm, hc⟩

theorem filter_by_length_idem (records : List SeqRecord)
    (min_length : Nat) (max_length : WithTop Nat) :
    filter_by_length (filter_by_length records min_length max_length)
        min_length max_length
      = filter_by_length records min_length max_length := by
  induction records with
  | nil => rfl
  | cons r rs ih =>
    rw [filter_by_length]
    split
    · rename_i hcond
      rw [filter_by_length, if_pos hcond, ih]
    · exact ih

/-- C6: for any record list and inclusive range (`max_length` may be
the `+∞` sentinel), the filter returns a sublist of the input (hence
a subset with the original relative order; the input itself is a
pure value and is not mutated), it keeps exactly the records whose
sequence length lies in the inclusive range, and filtering twice
with the same range equals filtering once. -/
theorem filter_by_length_spec (records : List SeqRecord)
    (min_length : Nat) (max_length : WithTop Nat)
    (_hrange : (min_length : WithTop Nat) ≤ max_length) :
    (filter_by_length records min_length max_length).Sublist records
      ∧ (∀ r ∈ filter_by_length records min_length max_length,
          min_length ≤ r.seq.length
            ∧ (r.seq.length : WithTop Nat) ≤ max_length)
      ∧ (∀ r ∈ records, min_length ≤ r.seq.length →
          (r.seq.length : WithTop Nat) ≤ max_length →
          r ∈ filter_by_length records min_length max_length)
      ∧ filter_by_length (filter_by_length records min_length max_length)
            min_length max_length
          = filter_by_length records min_length max_length := by
  refine ⟨filter_by_length_sublist records min_length max_length,
    fun r hr => (mem_filter_by_length.mp hr).2,
    fun r hm h1 h2 => mem_filter_by_length.mpr ⟨hm, h1, h2⟩,
    filter_by_length_idem records min_length max_length⟩

/-- C6 witness: the three sample records filtered into the inclusive
length range `[1, 4]`. -/
theorem filter_by_length_spec_witness :
    ((1 : WithTop Nat) ≤ (4 : WithTop Nat))
      ∧ ((filter_by_length sampleRecords 1 4).Sublist sampleRecords
          ∧ (∀ r ∈ filter_by_length sampleRecords 1 4,
              1 ≤ r.seq.length ∧ (r.seq.length : WithTop Nat) ≤ 4)
          ∧ (∀ r ∈ sampleRecords, 1 ≤ r.seq.length →
              (r.seq.length : WithTop Nat) ≤ 4 →
              r ∈ filter_by_length sampleRecords 1 4)
          ∧ filter_by_length (filter_by_length sampleRecords 1 4) 1 4
              = filter_by_length sampleRecords 1 4) :=
  ⟨by decide, filter_by_length_spec sampleRecords 1 4 (by decide)⟩

/-- C10: with the Python default arguments `min_length = 0` and
`max_length = float('inf')`, the filter is the identity. -/
theorem filter_by_length_default (records : List SeqRecord) :
    filter_by_length records 0 ⊤ = records := by
  induction records with
  | nil => rfl
  | cons r rs ih =>
    rw [filter_by_length, if_pos ⟨Nat.zero_le _, le_top⟩, ih]

/-! ### Claims about the composition statistics -/

theorem replaceAllEmpty_nil (s : List Char) : replaceAllEmpty [] s = s := by
  induction s with
  | nil => rw [replaceAllEmpty]
  | cons c rest ih =>
    rw [replaceAllEmpty]
    simp [ih]

/-- C4: whenever the pure sequence (the input with every occurrence
of the marker removed) is non-empty, `calculate_statistics` succeeds
and returns `percentage_X = count_X / total_length * 100` for each
base, where `total_length` is the length of the whole pure sequence,
unrecognized characters included — so characters outside `ACGT`
dilute all four percentages. -/
theorem calculate_statistics_percentages (sequence name : List Char)
    (hne : replaceAllEmpty name sequence ≠ []) :
    (calculate_statistics sequence name).map Stats.a_percent
        = some (((replaceAllEmpty name sequence).count 'A' : ℚ)
            / ((replaceAllEmpty name sequence).length : ℚ) * 100)
      ∧ (calculate_statistics sequence name).map Stats.c_percent
        = some (((replaceAllEmpty name sequence).count 'C' : ℚ)
            / ((replaceAllEmpty name sequence).length : ℚ) * 100)
      ∧ (calculate_statistics sequence name).map Stats.g_percent
        = some (((replaceAllEmpty name sequence).count 'G' : ℚ)
            / ((replaceAllEmpty name sequence).length : ℚ) * 100)
      ∧ (calculate_statistics sequence name).map Stats.t_percent
        = some (((replaceAllEmpty name sequence).count 'T' : ℚ)
            / ((replaceAllEmpty name sequence).length : ℚ) * 100) := by
  have hlen : (replaceAllEmpty name sequence).length ≠ 0 :=
    fun h => hne (List.length_eq_zero.mp h)
  unfold calculate_statistics
  rw [if_neg hlen]
  exact ⟨rfl, rfl, rfl, rfl⟩

/-- C4 witness: the sequence `AACCGGTT` with the empty marker: each
base percentage is `2 / 8 * 100`. -/
theorem calculate_statistics_percentages_witness :
    (calculate_statistics ('A' :: ('A' :: ('C' :: ('C' :: ('G' :: ('G'
          :: ('T' :: ['T']))))))) []).map Stats.a_percent
        = some (((replaceAllEmpty [] ('A' :: ('A' :: ('C' :: ('C' :: ('G'
            :: ('G' :: ('T' :: ['T'])))))))).count 'A' : ℚ)
            / ((replaceAllEmpty [] ('A' :: ('A' :: ('C' :: ('C' :: ('G'
              :: ('G' :: ('T' :: ['T'])))))))).length : ℚ) * 100)
      ∧ (calculate_statistics ('A' :: ('A' :: ('C' :: ('C' :: ('G' :: ('G'
          :: ('T' :: ['T']))))))) []).map Stats.c_percent
        = some (((replaceAllEmpty [] ('A' :: ('A' :: ('C' :: ('C' :: ('G'
            :: ('G' :: ('T' :: ['T'])))))))).count 'C' : ℚ)
            / ((replaceAllEmpty [] ('A' :: ('A' :: ('C' :: ('C' :: ('G'
              :: ('G' :: ('T' :: ['T'])))))))).length : ℚ) * 100)
      ∧ (calculate_statistics ('A' :: ('A' :: ('C' :: ('C' :: ('G' :: ('G'
          :: ('T' :: ['T']))))))) []).map Stats.g_percent
        = some (((replaceAllEmpty [] ('A' :: ('A' :: ('C' :: ('C' :: ('G'
            :: ('G' :: ('T' :: ['T'])))))))).count 'G' : ℚ)
            / ((replaceAllEmpty [] ('A' :: ('A' :: ('C' :: ('C' :: ('G'
              :: ('G' :: ('T' :: ['T'])))))))).length : ℚ) * 100)
      ∧ (calculate_statistics ('A' :: ('A' :: ('C' :: ('C' :: ('G' :: ('G'
          :: ('T' :: ['T']))))))) []).map Stats.t_percent
        = some (((replaceAllEmpty [] ('A' :: ('A' :: ('C' :: ('C' :: ('G'
            :: ('G' :: ('T' :: ['T'])))))))).count 'T' : ℚ)
            / ((replaceAllEmpty [] ('A' :: ('A' :: ('C' :: ('C' :: ('G'
              :: ('G' :: ('T' :: ['T'])))))))).length : ℚ) * 100) :=
  calculate_statistics_percentages _ []
    (by rw [replaceAllEmpty_nil]; decide)

/-- C5: whenever the pure sequence is non-empty,
`calculate_statistics` succeeds (no division-by-zero escapes), and
the `CG_AT_ratio` is `0` when `count_A + count_T = 0` and
`(count_C + count_G) / (count_A + count_T)` otherwise. -/
theorem calculate_statistics_cg_ratio (sequence name : List Char)
    (hne : replaceAllEmpty name sequence ≠ []) :
    (calculate_statistics sequence name).isSome = true
      ∧ ((replaceAllEmpty name sequence).count 'A'
            + (replaceAllEmpty name sequence).count 'T' = 0 →
          (calculate_statistics sequence name).map Stats.cg_ratio = some 0)
      ∧ ((replaceAllEmpty name sequence).count 'A'
            + (replaceAllEmpty name sequence).count 'T' ≠ 0 →
          (calculate_statistics sequence name).map Stats.cg_ratio
            = some ((((replaceAllEmpty name sequence).count 'C' : ℚ)
                  + ((replaceAllEmpty name sequence).count 'G' : ℚ))
                / (((replaceAllEmpty name sequence).count 'A' : ℚ)
                  + ((replaceAllEmpty name sequence).count 'T' : ℚ)))) := by
  have hlen : (replaceAllEmpty name sequence).length ≠ 0 :=
    fun h => hne (List.length_eq_zero.mp h)
  unfold calculate_statistics
  rw [if_neg hlen]
  refine ⟨rfl, fun hz => ?_, fun hz => ?_⟩
  · dsimp only
    rw [if_neg (by omega)]
    rfl
  · dsimp only
    rw [if_pos (by omega)]
    rfl

/-- C5 witness: the all-`C` sequence of length 10 with no marker:
the statistics are returned (nothing raises) and the ratio is 0. -/
theorem calculate_statistics_cg_ratio_witness :
    (calculate_statistics (List.replicate 10 'C') []).map Stats.cg_ratio
        = some 0
      ∧ (calculate_statistics (List.replicate 10 'C') []).isSome = true := by
  have h := calculate_statistics_cg_ratio (List.replicate 10 'C') []
    (by rw [replaceAllEmpty_nil]; decide)
  exact ⟨h.2.1 (by rw [replaceAllEmpty_nil]; decide), h.1⟩

/-! ### Claims about the FASTA writer -/

/-- On ASCII characters, the condition tested by `sanitizeChar` (the
negation of the regex class `[^\w\-\.]`) agrees with the character
class `[A-Za-z0-9_.-]` that the spec names.  Off ASCII the two
differ: the Unicode-aware `\w` keeps further word characters. -/
theorem sanitizeChar_cond_iff_ascii (c : Char) (hc : c.toNat < 128) :
    (pyWordChar c || decide (c = '-') || decide (c = '.')) = true
      ↔ specKeepChar c = true := by
  have h1 : ¬(0xC0 ≤ c.toNat) := by omega
  have h2 : c.toNat ≠ 0xAA := by omega
  have h3 : c.toNat ≠ 0xB5 := by omega
  have h4 : c.toNat ≠ 0xBA := by omega
  have h5 : c.toNat ≠ 0xB2 := by omega
  have h6 : c.toNat ≠ 0xB3 := by omega
  have h7 : c.toNat ≠ 0xB9 := by omega
  have h8 : ¬(0xBC ≤ c.toNat) := by omega
  have h9 : ¬(0x100 ≤ c.toNat) := by omega
  simp only [pyWordChar, specKeepChar, Bool.or_eq_true, Bool.and_eq_true,
    decide_eq_true_eq, Char.isAlphanum, Char.isAlpha, Char.isDigit,
    Char.isUpper, Char.isLower, h1, h2, h3, h4, h5, h6, h7, h8, h9,
    false_and, and_false, or_false, false_or]
  rw [show ('A' ≤ c) ↔ (c.val ≥ 65) from Iff.rfl,
    show (c ≤ 'Z') ↔ (c.val ≤ 90) from Iff.rfl,
    show ('a' ≤ c) ↔ (c.val ≥ 97) from Iff.rfl,
    show (c ≤ 'z') ↔ (c.val ≤ 122) from Iff.rfl,
    show ('0' ≤ c) ↔ (c.val ≥ 48) from Iff.rfl,
    show (c ≤ '9') ↔ (c.val ≤ 57) from Iff.rfl]
  tauto

theorem sanitizeChar_eq_spec_ascii (c : Char) (hc : c.toNat < 128) :
    sanitizeChar c = (if specKeepChar c then c else '_') := by
  by_cases h : specKeepChar c = true
  · rw [if_pos h]
    unfold sanitizeChar
    rw [if_pos (sanitizeChar_cond_iff_ascii c hc |>.mpr h)]
  · rw [if_neg h]
    unfold sanitizeChar
    rw [if_neg (fun hcond => h (sanitizeChar_cond_iff_ascii c hc |>.mp hcond))]

/-- C7 counterexample.  The claim's sanitization rule — replace every
character outside `[A-Za-z0-9_.-]` by an underscore — is false of
the program for non-ASCII identifiers: Python's `str`-pattern `\w`
is Unicode-aware, so for the id `é` (U+00E9) the source keeps the
character and writes `é.fasta`, while the claimed rule would give
`_.fasta`. -/
theorem save_to_fasta_filename_unicode_cex :
    (save_to_fasta [Char.ofNat 0xE9] [] []).1
        ≠ spec_sanitize [Char.ofNat 0xE9] ++ (".fasta").toList
      ∧ (save_to_fasta [Char.ofNat 0xE9] [] []).1
        = Char.ofNat 0xE9 :: (".fasta").toList
      ∧ spec_sanitize [Char.ofNat 0xE9] = ['_'] := by
  decide

/-- C7, amended: for every identifier made of ASCII characters,
`save_to_fasta` returns (and writes to) the filename obtained by
replacing every character outside `[A-Za-z0-9_.-]` by an underscore
and appending `.fasta`; in particular the id `a/b*c` yields the
filename `a_b_c.fasta`.  (For non-ASCII identifiers the
Unicode-aware `\w` keeps further word characters, see
`save_to_fasta_filename_unicode_cex`.) -/
theorem save_to_fasta_filename_ascii
    (sequence_id description sequence : List Char)
    (hascii : ∀ c ∈ sequence_id, c.toNat < 128) :
    (save_to_fasta sequence_id description sequence).1
        = spec_sanitize sequence_id ++ (".fasta").toList
      ∧ (save_to_fasta (("a/b*c").toList) description sequence).1
        = ("a_b_c.fasta").toList := by
  constructor
  · show sanitize_id sequence_id ++ (".fasta").toList = _
    unfold sanitize_id spec_sanitize
    rw [List.map_congr_left
      fun c hcmem => sanitizeChar_eq_spec_ascii c (hascii c hcmem)]
  · show sanitize_id (("a/b*c").toList) ++ (".fasta").toList
      = ("a_b_c.fasta").toList
    decide

/-- C7 witness: the id `a/b*c` is ASCII, and the sanitized filename
is `a_b_c.fasta`. -/
theorem save_to_fasta_filename_ascii_witness :
    (save_to_fasta (("a/b*c").toList) [] []).1
        = spec_sanitize (("a/b*c").toList) ++ (".fasta").toList
      ∧ (save_to_fasta (("a/b*c").toList) [] []).1
        = ("a_b_c.fasta").toList :=
  save_to_fasta_filename_ascii (("a/b*c").toList) [] [] (by decide)

/-- C8: the written file is the header line
`>` + original id + space + description followed by the sequence
sliced into lines of exactly 60 characters, the last line carrying
the remainder; concatenating the body lines restores the sequence,
and rendering appends one newline per written line. -/
theorem save_to_fasta_content (sequence_id description sequence : List Char) :
    (save_to_fasta sequence_id description sequence).2.head?
        = some ('>' :: (sequence_id ++ ' ' :: description))
      ∧ (save_to_fasta sequence_id description sequence).2.tail.flatten
        = sequence
      ∧ (∀ l ∈ (save_to_fasta sequence_id description sequence).2.tail,
          l.length ≤ 60)
      ∧ (∀ i, i + 1
            < (save_to_fasta sequence_id description sequence).2.tail.length →
          ((save_to_fasta sequence_id description sequence).2.tail.getD
              i []).length = 60)
      ∧ renderLines (save_to_fasta sequence_id description sequence).2
        = ('>' :: (sequence_id ++ ' ' :: description)) ++ Char.ofNat 10
            :: renderLines (chunkList 60 sequence) := by
  refine ⟨rfl, ?_, ?_, ?_, ?_⟩
  · show (chunkList 60 sequence).flatten = sequence
    exact chunkList_flatten 60 (by omega) sequence
  · intro l hl
    exact length_le_of_mem_chunkList hl
  · intro i hi
    exact chunkList_getD_length (by omega) hi
  · show renderLines (_ :: chunkList 60 sequence) = _
    rw [renderLines, List.map_cons, List.flatten_cons]
    simp [renderLines, List.append_assoc]

/-- C8 witness: a 130-character sequence is written as two
60-character lines plus one 10-character line after the header. -/
theorem save_to_fasta_content_witness :
    ((save_to_fasta (("id1").toList) (("desc").toList)
          (List.replicate 130 'A')).2.tail.getD 0 []).length = 60
      ∧ ((save_to_fasta (("id1").toList) (("desc").toList)
          (List.replicate 130 'A')).2.tail.getD 1 []).length = 60
      ∧ (save_to_fasta (("id1").toList) (("desc").toList)
          (List.replicate 130 'A')).2.tail.flatten
        = List.replicate 130 'A'
      ∧ (save_to_fasta (("id1").toList) (("desc").toList)
          (List.replicate 130 'A')).2.tail.length = 3 := by
  have h := save_to_fasta_content (("id1").toList) (("desc").toList)
    (List.replicate 130 'A')
  refine ⟨h.2.2.2.1 0 ?_, h.2.2.2.1 1 ?_, h.2.1, ?_⟩
  all_goals
    set_option maxRecDepth 4000 in decide

/-! ### Claims about the name insertion -/

/-- C9: with `position` the value drawn by
`random.randint(0, len(sequence))`, the result is
`sequence[:position] + name + sequence[position:]`; the draw has
`N + 1` possible positions, and both end positions are possible,
inserting the name before (offset 0) or after (offset `N`) the whole
sequence. -/
theorem insert_name_spec (sequence name : List Char) (position : Nat)
    (hpos : position ≤ sequence.length) :
    insert_name_into_sequence sequence name position
        = sequence.take position ++ name ++ sequence.drop position
      ∧ position ∈ randintSupport sequence.length
      ∧ 0 ∈ randintSupport sequence.length
      ∧ sequence.length ∈ randintSupport sequence.length
      ∧ (randintSupport sequence.length).length = sequence.length + 1
      ∧ insert_name_into_sequence sequence name 0 = name ++ sequence
      ∧ insert_name_into_sequence sequence name sequence.length
        = sequence ++ name := by
  refine ⟨rfl, ?_, ?_, ?_, ?_, ?_, ?_⟩
  · simp only [randintSupport, List.mem_range]
    omega
  · simp [randintSupport]
  · simp [randintSupport]
  · simp [randintSupport]
  · simp [insert_name_into_sequence]
  · simp [insert_name_into_sequence]

/-- C9 witness: inserting `BOB` into `ACGT` at offset 2. -/
theorem insert_name_spec_witness :
    insert_name_into_sequence (("ACGT").toList) (("BOB").toList) 2
        = (("ACGT").toList).take 2 ++ ("BOB").toList
            ++ (("ACGT").toList).drop 2
      ∧ 2 ∈ randintSupport (("ACGT").toList).length
      ∧ 0 ∈ randintSupport (("ACGT").toList).length
      ∧ (("ACGT").toList).length ∈ randintSupport (("ACGT").toList).length
      ∧ (randintSupport (("ACGT").toList).length).length
        = (("ACGT").toList).length + 1
      ∧ insert_name_into_sequence (("ACGT").toList) (("BOB").toList) 0
        = ("BOB").toList ++ ("ACGT").toList
      ∧ insert_name_into_sequence (("ACGT").toList) (("BOB").toList)
          (("ACGT").toList).length
        = ("ACGT").toList ++ ("BOB").toList :=
  insert_name_spec (("ACGT").toList) (("BOB").toList) 2 (by decide)

end PBio
